import Mathlib

/-!
Verification development for the mtasa-docs-mcp repository.

The TypeScript sources are embedded shallowly:
- pure string manipulation is modelled over `List Char` (JavaScript strings
  are sequences of UTF-16 units; for the ASCII data handled by this program
  the two views agree, and the model applies the same operations per unit);
- the SQLite tables are modelled as association lists keyed by name
  (`function_docs` has `function_name` as primary key, INSERT OR REPLACE
  replaces the row with the same key);
- the network (`fetch`) and the JavaScript regular-expression engine are
  external collaborators: they enter the model as oracle parameters, so that
  every theorem quantifies over all of their possible behaviours;
- `Date.now()` is an explicit integer parameter `now`;
- the Float32 arithmetic of the embedding generator is idealised over the
  real numbers.
-/

namespace MtasaDocs

/-! ## Character and string helpers (JavaScript primitives) -/

/-- Model of JavaScript `s.toLowerCase()`: per-unit lowering (exact on ASCII). -/
def lowerString (s : String) : String := ⟨s.data.map Char.toLower⟩

/-- Model of the JavaScript whitespace class `\s` (exact on ASCII input). -/
def isSpaceChar (c : Char) : Bool := c.isWhitespace

/-- Model of the JavaScript word class `\w`, that is `[A-Za-z0-9_]`. -/
def isWordChar (c : Char) : Bool := c.isAlphanum || c == '_'

/-- Model of JavaScript `s.trim()`: drop whitespace at both ends. -/
def trimStr (s : String) : String :=
  ⟨((s.data.dropWhile isSpaceChar).reverse.dropWhile isSpaceChar).reverse⟩

/-- Model of JavaScript `s.substring(0, n)`: the first `n` units. -/
def strTake (s : String) (n : Nat) : String := ⟨s.data.take n⟩

/-- Does the list start with the given needle? Model of a prefix test. -/
def listStarts : List Char → List Char → Bool
  | _, [] => true
  | [], _ :: _ => false
  | a :: as, b :: bs => a == b && listStarts as bs

/-- Does the list contain the needle as a contiguous run? -/
def listHas : List Char → List Char → Bool
  | [], needle => needle.isEmpty
  | a :: as, needle => listStarts (a :: as) needle || listHas as needle

/-- Model of JavaScript `s.includes(sub)`. -/
def containsStr (s sub : String) : Bool := listHas s.data sub.data

/-- Model of JavaScript `s.startsWith(p)`. -/
def startsWithStr (s p : String) : Bool := listStarts s.data p.data

/-- Model of JavaScript `list.join(sep)`. -/
def joinSep (sep : String) : List String → String
  | [] => ""
  | [x] => x
  | x :: y :: xs => x ++ sep ++ joinSep sep (y :: xs)

/-- Helper for `jsSplitWs`: the flag records whether the previous unit was
whitespace (a run of whitespace is a single separator for `split(/\s+/)`). -/
def splitWsAux : List Char → List Char → Bool → List String
  | [], acc, _ => [⟨acc.reverse⟩]
  | c :: cs, acc, prevSpace =>
    if isSpaceChar c then
      if prevSpace then splitWsAux cs acc true
      else ⟨acc.reverse⟩ :: splitWsAux cs [] true
    else splitWsAux cs (c :: acc) false

/-- Model of JavaScript `s.split(/\s+/)`: split on maximal whitespace runs.
Leading whitespace yields a leading empty string, as in JavaScript. -/
def jsSplitWs (s : String) : List String := splitWsAux s.data [] false

/-- Helper for `camelSplitStr`: cut before each uppercase unit, but never at
position zero (JavaScript `split` ignores a zero-width match at the start). -/
def camelSplitAux : List Char → List Char → List String
  | [], acc => [⟨acc.reverse⟩]
  | c :: cs, acc =>
    if c.isUpper then
      if acc.isEmpty then camelSplitAux cs [c]
      else ⟨acc.reverse⟩ :: camelSplitAux cs [c]
    else camelSplitAux cs (c :: acc)

/-- Model of JavaScript `s.split(/(?=[A-Z])/)`. -/
def camelSplitStr (s : String) : List String := camelSplitAux s.data []

/-! ## Data model (src/types/interfaces.ts and src/config/constants.ts) -/

/-- The `side` column of `function_metadata`. -/
inductive Side
  | client
  | server
  | shared
deriving DecidableEq

/-- One catalog entry (interface `MtasaFunction`). -/
structure MtasaFunction where
  name : String
  type : Int
  category : String
  side : Side
deriving DecidableEq

/-- One cached document (interface `CachedDoc`; the `syntax` field of the
source is called `stx` here because `syntax` is reserved in Lean). -/
structure CachedDoc where
  function_name : String
  url : String
  description : String
  stx : String
  examples : String
  parameters : String
  returns : String
  related_functions : String
  full_text : String
  timestamp : Int
  deprecated : Option String
deriving DecidableEq

/-- Cache max-age, `CACHE_DURATION = 7 * 24 * 60 * 60 * 1000` (milliseconds). -/
def CACHE_DURATION : Int := 7 * 24 * 60 * 60 * 1000

/-- Embedding dimension, `VECTOR_DIMENSIONS = 384`. -/
def VECTOR_DIMENSIONS : Nat := 384

/-! ## Parser model (src/utils/parser.ts)

The JavaScript regular-expression engine is an external collaborator.  A
`RegexOracle` packages, for one HTML page, the captures that
`parseDocumentation` reads from the engine; every theorem about the parser
quantifies over all oracles, hence over all possible pages.  Likewise the
`stripHtml` helper chain is passed in as an arbitrary function `strip`. -/

/-- Outcomes of the regular-expression matches performed by
`parseDocumentation` on one HTML page:
- `descMatch`: capture 1 of the first `<p>...</p>` match, if any;
- `deprecatedName`: the identifier captured by the first matching
  deprecation pattern, if any;
- `syntaxSection`: capture 1 of the `Syntax ... <pre>` match, if any;
- `preBlocks`: capture 1 of every `<pre>...</pre>` match, in order;
- `luaBlocks`: capture 1 of every lua `<syntaxhighlight>` match, in order;
- `examplePreBlocks`: capture 1 of every `Example ... <pre>` match, in order;
- `requiredArgs`, `optionalArgs`, `oldFormatArgs`: the matched argument
  sections, if any;
- `returnsSec`, `oldReturnsSec`: the matched returns sections, if any;
- `seeAlsoLinks`: for every link matched inside the See Also section, the
  value of `match[1] || match[2]`. -/
structure RegexOracle where
  descMatch : Option String
  deprecatedName : Option String
  syntaxSection : Option String
  preBlocks : List String
  luaBlocks : List String
  examplePreBlocks : List String
  requiredArgs : Option String
  optionalArgs : Option String
  oldFormatArgs : Option String
  returnsSec : Option String
  oldReturnsSec : Option String
  seeAlsoLinks : List String

/-- Oracle for a page on which no pattern matches. -/
def emptyOracle : RegexOracle :=
  ⟨none, none, none, [], [], [], none, none, none, none, none, []⟩

/-- Step of the `<pre>` loop building `syntaxList`: push the stripped and
trimmed code when it is nonempty, not yet present, the list still has fewer
than three entries, and the code mentions the function name, the word
`function`, or an equals sign. -/
def addSyntaxBlock (strip : String → String) (functionName : String)
    (acc : List String) (m : String) : List String :=
  let code := trimStr (strip m)
  if code ≠ "" && !(acc.contains code) && acc.length < 3 &&
      (containsStr code functionName || containsStr code "function" ||
        containsStr code "=") then
    acc ++ [code]
  else acc

/-- Step of the `<syntaxhighlight>` loop building `examplesList`. -/
def addLuaExample (strip : String → String)
    (acc : List String) (m : String) : List String :=
  let ex := trimStr (strip m)
  if ex ≠ "" && ex.length > 20 then acc ++ [ex] else acc

/-- Step of the `Example ... <pre>` loop extending `examplesList`. -/
def addPreExample (strip : String → String)
    (acc : List String) (m : String) : List String :=
  let ex := trimStr (strip m)
  if ex ≠ "" && !(acc.contains ex) && ex.length > 20 then
    acc ++ [ex]
  else acc

/-- Model of `parseDocumentation(html, functionName)` from
src/utils/parser.ts, with the regex captures for `html` supplied by `rx`,
the `stripHtml` helper supplied by `strip`, and `Date.now()` supplied by
`now`.  Note the source signature takes only the page and the function
name: the `url` field is always built from `functionName`. -/
def parseDocumentation (strip : String → String) (rx : RegexOracle)
    (functionName : String) (now : Int) : CachedDoc :=
  let description :=
    match rx.descMatch with
    | some m => strTake (strip m) 1000
    | none => ""
  let deprecated := rx.deprecatedName.map (fun n => "Use " ++ n ++ " instead")
  let syntaxList :=
    match rx.syntaxSection with
    | some m => [strip m]
    | none => []
  let syntaxList := rx.preBlocks.foldl (addSyntaxBlock strip functionName) syntaxList
  let examplesList := rx.luaBlocks.foldl (addLuaExample strip) []
  let examplesList := rx.examplePreBlocks.foldl (addPreExample strip) examplesList
  let paramsMatches :=
    (match rx.requiredArgs with | some m => [strip m] | none => []) ++
    (match rx.optionalArgs with | some m => [strip m] | none => [])
  let paramsMatches :=
    if paramsMatches.length = 0 then
      match rx.oldFormatArgs with
      | some m => [strip m]
      | none => []
    else paramsMatches
  let returns :=
    match rx.returnsSec with
    | some m => strTake (strip m) 500
    | none =>
      match rx.oldReturnsSec with
      | some m => strTake (strip m) 500
      | none => ""
  let related := rx.seeAlsoLinks.filter
    (fun n => n ≠ "" && !(containsStr n ":") && !(containsStr n "/"))
  let stx := joinSep "\n---\n" syntaxList
  let examples := joinSep "\n---\n" examplesList
  let parameters := strTake (joinSep "\n\n" paramsMatches) 2000
  { function_name := functionName
    url := "https://wiki.multitheftauto.com/wiki/" ++ functionName
    description := description
    stx := stx
    examples := examples
    parameters := parameters
    returns := returns
    related_functions := joinSep ", " related
    full_text := joinSep " " [description, stx, parameters, returns, examples]
    timestamp := now
    deprecated := deprecated }

/-! ## Loader model (src/utils/loader.ts, fetchFunctionDoc) -/

/-- A successful `fetch` of one URL: the page text and `response.url`
(the final redirected URL; the empty string models a falsy `response.url`). -/
structure FetchOk where
  html : String
  responseUrl : String
deriving DecidableEq

/-- External collaborators of `fetchFunctionDoc`:
- `fetchUrl` — the network; `none` covers both a non-ok response and a
  thrown error (the source ignores either and tries the next variant);
- `strip` and `regexOf` — the HTML parsing collaborators, as above;
- `seeAlsoScan` — the title captures of the See Also scan that the loader
  itself performs on the raw page;
- `now` — `Date.now()`. -/
structure WikiEnv where
  fetchUrl : String → Option FetchOk
  strip : String → String
  regexOf : String → RegexOracle
  seeAlsoScan : String → List String
  now : Int

/-- Result of one `fetchFunctionDoc` call: the returned value, the state of
the `function_docs` table afterwards, and whether the wiki was contacted. -/
structure FetchOutcome where
  result : Option CachedDoc
  cache' : List (String × CachedDoc)
  fetched : Bool
deriving DecidableEq

/-- Wiki page URL for one identifier spelling. -/
def wikiUrl (v : String) : String := "https://wiki.multitheftauto.com/wiki/" ++ v

/-- Model of `name.charAt(0).toUpperCase() + name.slice(1)`. -/
def capitalizeFirst (s : String) : String :=
  match s.data with
  | [] => ""
  | c :: cs => ⟨c.toUpper :: cs⟩

/-- The spelling variants tried by `fetchFunctionDoc`, in source order:
original, first letter capitalized, all lowercase. -/
def urlVariants (name : String) : List String :=
  [name, capitalizeFirst name, lowerString name]

/-- The variant loop: take the first variant whose fetch succeeds, yielding
the page text and `usedUrl = response.url || url`. -/
def firstOk (fetchUrl : String → Option FetchOk) : List String → Option (String × String)
  | [] => none
  | v :: vs =>
    match fetchUrl (wikiUrl v) with
    | some ok => some (ok.html, if ok.responseUrl = "" then wikiUrl v else ok.responseUrl)
    | none => firstOk fetchUrl vs

/-- Model of `queries.getDoc().get(name)`: lookup by primary key. -/
def getDocQ (cache : List (String × CachedDoc)) (name : String) : Option CachedDoc :=
  (cache.find? (fun p => p.1 == name)).map (fun p => p.2)

/-- Model of `queries.insertDoc().run(...)`: INSERT OR REPLACE by primary
key `function_name`. -/
def insertDocQ (cache : List (String × CachedDoc)) (doc : CachedDoc) :
    List (String × CachedDoc) :=
  cache.filter (fun p => p.1 ≠ doc.function_name) ++ [(doc.function_name, doc)]

/-- The document assembled and stored after a successful fetch of `html`:
the parsed fields, with `related_functions` falling back to the See Also
scan filtered against the catalog when the parsed list is empty. -/
def storedDoc (env : WikiEnv) (catalogNames : List String)
    (functionName html : String) : CachedDoc :=
  let docData := parseDocumentation env.strip (env.regexOf html) functionName env.now
  let relatedList := (env.seeAlsoScan html).filter (fun n => catalogNames.contains n)
  { docData with
    related_functions :=
      if docData.related_functions ≠ "" then docData.related_functions
      else joinSep ", " relatedList }

/-- Model of `fetchFunctionDoc(functionName, useCache)` from
src/utils/loader.ts.  `catalogNames` is the key set of the in-memory
`allFunctions` map.  The try/catch of the source maps every failure path to
`result = none` with the cache untouched. -/
def fetchFunctionDoc (env : WikiEnv) (catalogNames : List String)
    (cache : List (String × CachedDoc)) (functionName : String)
    (useCache : Bool) : FetchOutcome :=
  let hit : Option CachedDoc :=
    if useCache then
      match getDocQ cache functionName with
      | some cached =>
        if env.now - cached.timestamp < CACHE_DURATION then some cached else none
      | none => none
    else none
  match hit with
  | some cached => ⟨some cached, cache, false⟩
  | none =>
    match firstOk env.fetchUrl (urlVariants functionName) with
    | none => ⟨none, cache, true⟩
    | some (html, usedUrl) =>
      if html = "" || usedUrl = "" then ⟨none, cache, true⟩
      else
        let doc := storedDoc env catalogNames functionName html
        ⟨some doc, insertDocQ cache doc, true⟩

/-- Does the cache-hit branch of `fetchFunctionDoc` fire? -/
def freshHit (now : Int) (cache : List (String × CachedDoc)) (name : String)
    (useCache : Bool) : Bool :=
  useCache &&
    match getDocQ cache name with
    | some d => decide (now - d.timestamp < CACHE_DURATION)
    | none => false

/-- Does the wiki fetch for this identifier end in the thrown
`Could not fetch wiki page` error?  That happens when no variant succeeds,
or the accepted response carries an empty (falsy) page or URL. -/
def fetchFails (fetchUrl : String → Option FetchOk) (name : String) : Prop :=
  match firstOk fetchUrl (urlVariants name) with
  | none => True
  | some (html, usedUrl) => html = "" ∨ usedUrl = ""

/-! ## Embedding model (src/utils/embeddings.ts, generateTextEmbedding)

The tokenizer and the bucket hash are exact models of the source (the
tokens surviving normalization consist of ASCII word characters only, so
`charCodeAt` agrees with the scalar value).  The Float32 arithmetic of the
vector is idealised over the real numbers. -/

/-- Model of `replace(/[^\w\s]/g, " ")` applied to one unit. -/
def normalizeChar (c : Char) : Char :=
  if isWordChar c || isSpaceChar c then c else ' '

/-- The surviving tokens of `generateTextEmbedding`: lowercase, replace
punctuation by spaces, split on whitespace, keep tokens of length > 2. -/
def tokensOf (text : String) : List String :=
  (jsSplitWs ⟨(lowerString text).data.map normalizeChar⟩).filter
    (fun w => w.length > 2)

/-- Wrap an integer into the signed 32-bit range, as the JavaScript `| 0`
coercion does. -/
def toInt32 (n : Int) : Int := (n + 2 ^ 31) % 2 ^ 32 - 2 ^ 31

/-- One step of the rolling hash `hash = ((hash << 5) - hash + c) | 0`
(the shift itself operates on 32-bit values). -/
def hashStep (h : Int) (c : Char) : Int :=
  toInt32 (toInt32 (h * 32) - h + c.toNat)

/-- The integer hash of one token. -/
def jsHash (w : String) : Int := w.data.foldl hashStep 0

/-- The bucket of one token: `Math.abs(hash) % VECTOR_DIMENSIONS`. -/
def wordIndexN (w : String) : Nat := (jsHash w).natAbs % VECTOR_DIMENSIONS

/-- Number of tokens falling into one bucket (the `termFreq` map). -/
def termFreq (ws : List String) (i : Fin VECTOR_DIMENSIONS) : Nat :=
  ws.countP (fun w => wordIndexN w == i.val)

/-- The vector before final normalization:
`vector[index] = freq / Math.sqrt(words.length + 1)` and zero elsewhere. -/
noncomputable def rawVec (ws : List String) (i : Fin VECTOR_DIMENSIONS) : ℝ :=
  (termFreq ws i : ℝ) / Real.sqrt (ws.length + 1)

/-- The accumulated squared magnitude of the vector. -/
noncomputable def sumSq (ws : List String) : ℝ :=
  ∑ i : Fin VECTOR_DIMENSIONS, rawVec ws i * rawVec ws i

/-- The magnitude computed by the source before the final division. -/
noncomputable def magnitudeOf (ws : List String) : ℝ := Real.sqrt (sumSq ws)

/-- Model of `generateTextEmbedding(text)`: divide by the magnitude when it
is positive, otherwise return the accumulated vector unchanged. -/
noncomputable def generateTextEmbedding (text : String)
    (i : Fin VECTOR_DIMENSIONS) : ℝ :=
  let ws := tokensOf text
  if 0 < magnitudeOf ws then rawVec ws i / magnitudeOf ws else rawVec ws i

/-! ## Search model (src/utils/search.ts) -/

/-- The static `KEYWORD_ALIASES` table, transcribed entry for entry. -/
def KEYWORD_ALIASES : String → List String
  | "database" => ["db"]
  | "sqlite" => ["db"]
  | "sql" => ["db"]
  | "query" => ["db"]
  | "gui" => ["gui", "dgs"]
  | "interface" => ["gui", "dgs"]
  | "window" => ["gui", "dgs", "create"]
  | "button" => ["gui", "dgs", "create"]
  | "ui" => ["gui", "dgs"]
  | "menu" => ["gui", "dgs"]
  | "dialog" => ["gui", "dgs"]
  | "cegui" => ["gui", "dgs"]
  | "browser" => ["browser", "gui", "create"]
  | "cef" => ["browser", "create", "inject"]
  | "html" => ["browser", "create"]
  | "javascript" => ["browser", "execute"]
  | "js" => ["browser", "execute"]
  | "web" => ["browser", "create"]
  | "webview" => ["browser", "create"]
  | "element" => ["element", "get", "set", "create"]
  | "player" => ["player", "get", "set"]
  | "vehicle" => ["vehicle", "get", "set", "create"]
  | "car" => ["vehicle"]
  | "ped" => ["ped", "get", "set", "create"]
  | "pedestrian" => ["ped"]
  | "npc" => ["ped"]
  | "object" => ["object", "create"]
  | "pickup" => ["pickup", "create"]
  | "marker" => ["marker", "create"]
  | "blip" => ["blip", "create"]
  | "draw" => ["dx", "dgs", "gui", "text"]
  | "render" => ["dx"]
  | "directx" => ["dx"]
  | "graphics" => ["dx"]
  | "shader" => ["shader", "dx", "engine"]
  | "texture" => ["texture", "dx", "engine"]
  | "sound" => ["sound", "play"]
  | "audio" => ["sound", "play"]
  | "music" => ["sound", "play"]
  | "effect" => ["fx", "play"]
  | "animation" => ["set", "get"]
  | "anim" => ["set", "get"]
  | "weapon" => ["weapon", "give", "take"]
  | "gun" => ["weapon", "give"]
  | "event" => ["event", "add", "trigger", "on"]
  | "handler" => ["add", "remove"]
  | "callback" => ["add", "on"]
  | "bind" => ["bind", "toggle"]
  | "key" => ["bind", "get", "is"]
  | "control" => ["get", "set", "toggle"]
  | "permission" => ["acl"]
  | "access" => ["acl"]
  | "admin" => ["acl"]
  | "xml" => ["xml"]
  | "file" => ["file"]
  | "config" => ["xml", "file"]
  | "camera" => ["get", "set"]
  | "weather" => ["get", "set"]
  | "time" => ["get", "set"]
  | "world" => ["get", "set"]
  | "network" => ["fetch", "call"]
  | "remote" => ["call", "fetch"]
  | "http" => ["http", "fetch"]
  | "engine" => ["engine"]
  | "model" => ["engine"]
  | "handling" => ["handling"]
  | "timer" => ["set", "kill"]
  | "debug" => ["debug", "output"]
  | "console" => ["output"]
  | "chat" => ["output"]
  | "message" => ["output"]
  | _ => []

/-- Append an element unless already present, as adding to a JavaScript
`Set` (insertion order preserved). -/
def addUnique (l : List String) (x : String) : List String :=
  if l.contains x then l else l ++ [x]

/-- Model of `expandQueryKeywords(query)`: the lowercase words of the query
followed by the alias expansions of each word, deduplicated in insertion
order. -/
def expandQueryKeywords (query : String) : List String :=
  let words := jsSplitWs (lowerString query)
  let base := words.foldl addUnique []
  words.foldl (fun acc w => (KEYWORD_ALIASES w).foldl addUnique acc) base

/-- The keywords used by the fallback: expansions of length > 2. -/
def keywordsOf (query : String) : List String :=
  (expandQueryKeywords query).filter (fun w => w.length > 2)

/-- Model of the score loop of `findRelatedFunctions`: +20 for a prefix
match, +10 for a containment match, +5 when the split of the lowercased
name before uppercase units has a part containing the keyword. -/
def scoreOf (keywords : List String) (funcName : String) : Int :=
  let funcNameLower := lowerString funcName
  keywords.foldl
    (fun score keyword =>
      let score := if startsWithStr funcNameLower keyword then score + 20 else score
      let score := if containsStr funcNameLower keyword then score + 10 else score
      if (camelSplitStr funcNameLower).any
          (fun part => containsStr (lowerString part) keyword) then score + 5
      else score)
    0

/-- Insert into a list sorted by strictly descending continuation: the new
element goes after every strictly greater score and before the first score
less than or equal to its own. -/
def insertScored {α : Type} (x : α × Int) : List (α × Int) → List (α × Int)
  | [] => [x]
  | y :: ys => if x.2 < y.2 then y :: insertScored x ys else x :: y :: ys

/-- Stable sort by descending score.  It models
`scored.sort((a, b) => b.score - a.score)`: the ECMAScript sort is required
to be stable and to order by the comparator, which any stable descending
sort realises; this insertion sort is one such. -/
def sortScored {α : Type} : List (α × Int) → List (α × Int)
  | [] => []
  | x :: xs => insertScored x (sortScored xs)

/-- The scored list of the fallback, in catalog iteration order, with
zero-score entries discarded. -/
def scoredList (mem : List MtasaFunction) (keywords : List String) :
    List (MtasaFunction × Int) :=
  (mem.map (fun f => (f, scoreOf keywords f.name))).filter (fun p => 0 < p.2)

/-- The scored list after the descending sort. -/
def rankedList (mem : List MtasaFunction) (keywords : List String) :
    List (MtasaFunction × Int) :=
  sortScored (scoredList mem keywords)

/-- Model of the keyword fallback of `findRelatedFunctions`: score every
catalog entry, drop zero scores, sort descending, take `limit`. -/
def keywordFallback (mem : List MtasaFunction) (query : String) (limit : Nat) :
    List MtasaFunction :=
  ((rankedList mem (keywordsOf query)).take limit).map (fun p => p.1)

/-- The vector candidates: the rows returned by the vector query mapped to
catalog entries through `getMetadata`, rows without metadata skipped.
`vecRows` is `none` when the vector query throws. -/
def vecCandidates (vecRows : Option (List String))
    (dbMeta : List MtasaFunction) : List MtasaFunction :=
  match vecRows with
  | none => []
  | some rows => rows.filterMap (fun n => dbMeta.find? (fun f => f.name == n))

/-- Model of `findRelatedFunctions(query, limit)`.  `vecRows` holds the
`function_name` column of the vector-similarity query in ascending distance
order (or `none` on a thrown error), `dbMeta` the `function_metadata`
table, and `mem` the values of the in-memory `allFunctions` map in
insertion order. -/
def findRelatedFunctions (vecRows : Option (List String))
    (dbMeta mem : List MtasaFunction) (query : String) (limit : Nat) :
    List MtasaFunction :=
  match vecRows with
  | none => keywordFallback mem query limit
  | some rows =>
    let functions := vecCandidates (some rows) dbMeta
    if 0 < rows.length && limit ≤ functions.length then functions.take limit
    else keywordFallback mem query limit

/-! ## Metadata search model (src/database/queries.ts, searchFunctions) -/

/-- The LIKE pattern built by `searchFunctions`. -/
def likePattern (query : String) : String := "%" ++ query ++ "%"

/-- The row predicate of the `searchMetadata` statement for a non-null side
argument binding:
`name LIKE ? AND (? IS NULL OR side = ? OR side = 'shared')`.
The SQLite LIKE operator is an external collaborator passed in as `likeFn`. -/
def searchMetadataRow (likeFn : String → String → Bool) (pattern : String)
    (sideArg : Option Side) (f : MtasaFunction) : Bool :=
  likeFn f.name pattern &&
    match sideArg with
    | none => true
    | some s => f.side == s || f.side == Side.shared

/-- Model of `searchFunctions(query, side, limit)`: filter the metadata
table by the statement predicate and take `limit` rows. -/
def searchFunctions (likeFn : String → String → Bool)
    (table : List MtasaFunction) (query : String) (side : Option Side)
    (limit : Nat) : List MtasaFunction :=
  (table.filter (searchMetadataRow likeFn (likePattern query) side)).take limit

/-! ## Supporting lemmas -/

/-- Truncation bound for the model of `substring(0, n)`. -/
theorem strTake_length_le (s : String) (n : Nat) : (strTake s n).length ≤ n := by
  have h : (strTake s n).length = min n s.data.length := List.length_take n s.data
  omega

/-- Evaluation lemma for `fetchFunctionDoc`: the call is a cache hit
exactly when `freshHit` holds, and otherwise runs the fetch pipeline. -/
theorem ffd_eq (env : WikiEnv) (catalogNames : List String)
    (cache : List (String × CachedDoc)) (name : String) (useCache : Bool) :
    fetchFunctionDoc env catalogNames cache name useCache =
      if freshHit env.now cache name useCache then
        ⟨getDocQ cache name, cache, false⟩
      else
        match firstOk env.fetchUrl (urlVariants name) with
        | none => ⟨none, cache, true⟩
        | some (html, usedUrl) =>
          if html = "" || usedUrl = "" then ⟨none, cache, true⟩
          else
            ⟨some (storedDoc env catalogNames name html),
              insertDocQ cache (storedDoc env catalogNames name html), true⟩ := by
  cases useCache with
  | false => rfl
  | true =>
    cases hgd : getDocQ cache name with
    | none => simp only [fetchFunctionDoc, freshHit, hgd]; rfl
    | some d =>
      by_cases ht : env.now - d.timestamp < CACHE_DURATION
      · simp only [fetchFunctionDoc, freshHit, hgd, ht, decide_True, if_true,
          Bool.true_and, decide_eq_true_eq]
      · simp only [fetchFunctionDoc, freshHit, hgd, ht, decide_False, if_false,
          Bool.true_and, decide_eq_true_eq]
        rfl

/-- A fresh hit requires a present cache row. -/
theorem freshHit_elim {now : Int} {cache : List (String × CachedDoc)}
    {name : String} {useCache : Bool}
    (h : freshHit now cache name useCache = true) :
    ∃ d, getDocQ cache name = some d ∧ now - d.timestamp < CACHE_DURATION := by
  unfold freshHit at h
  rcases hgd : getDocQ cache name with _ | d
  · rw [hgd] at h
    simp at h
  · rw [hgd] at h
    simp at h
    exact ⟨d, rfl, h.2⟩

/-- Whenever the cache-hit branch does not fire, the wiki is contacted. -/
theorem ffd_fetched (env : WikiEnv) (catalogNames : List String)
    (cache : List (String × CachedDoc)) (name : String) (useCache : Bool)
    (hf : freshHit env.now cache name useCache = false) :
    (fetchFunctionDoc env catalogNames cache name useCache).fetched = true := by
  rw [ffd_eq, hf]
  simp only [Bool.false_eq_true, if_false]
  cases hfo : firstOk env.fetchUrl (urlVariants name) with
  | none => rfl
  | some p =>
    obtain ⟨html, usedUrl⟩ := p
    by_cases hcond : html = "" ∨ usedUrl = ""
    · simp [hcond]
    · simp [hcond]

/-- Inserting leaves the previous elements in their relative order. -/
theorem sublist_insertScored {α : Type} (x : α × Int) (m : List (α × Int)) :
    m.Sublist (insertScored x m) := by
  induction m with
  | nil => simp [insertScored]
  | cons y ys ih =>
    by_cases h : x.2 < y.2
    · simpa [insertScored, h] using List.Sublist.cons₂ y ih
    · simp only [insertScored, h, if_neg, if_false]
      exact List.Sublist.cons x (List.Sublist.refl (y :: ys))

/-- Membership is preserved by insertion. -/
theorem mem_insertScored {α : Type} {b : α × Int} (x : α × Int)
    (m : List (α × Int)) (hb : b ∈ m) : b ∈ insertScored x m := by
  induction m with
  | nil => cases hb
  | cons y ys ih =>
    by_cases h : x.2 < y.2
    · rcases List.mem_cons.mp hb with hby | hbys
      · simp [insertScored, h, hby]
      · simp [insertScored, h, ih hbys]
    · simp [insertScored, h]
      rcases List.mem_cons.mp hb with hby | hbys
      · simp [hby]
      · simp [hbys]

/-- The inserted element lands after every earlier element whose score is
at least its own. -/
theorem pair_sublist_insertScored {α : Type} (x b : α × Int)
    (m : List (α × Int)) (hb : b ∈ m) (hle : b.2 ≤ x.2) :
    [x, b].Sublist (insertScored x m) := by
  induction m with
  | nil => cases hb
  | cons y ys ih =>
    by_cases h : x.2 < y.2
    · have hbys : b ∈ ys := by
        rcases List.mem_cons.mp hb with hby | hbys
        · subst hby
          omega
        · exact hbys
      simpa [insertScored, h] using List.Sublist.cons y (ih hbys)
    · simpa [insertScored, h] using
        List.Sublist.cons₂ x (List.singleton_sublist.mpr hb)

/-- The inserted element is a member of the result. -/
theorem mem_insertScored_self {α : Type} (x : α × Int) (m : List (α × Int)) :
    x ∈ insertScored x m := by
  induction m with
  | nil => simp [insertScored]
  | cons y ys ih =>
    by_cases h : x.2 < y.2
    · simp [insertScored, h, ih]
    · simp [insertScored, h]

/-- Sorting preserves membership. -/
theorem mem_sortScored {α : Type} {b : α × Int} (l : List (α × Int))
    (hb : b ∈ l) : b ∈ sortScored l := by
  induction l with
  | nil => cases hb
  | cons x xs ih =>
    rcases List.mem_cons.mp hb with hbx | hbxs
    · subst hbx
      exact mem_insertScored_self b (sortScored xs)
    · exact mem_insertScored x (sortScored xs) (ih hbxs)

/-- The stable descending sort keeps the relative order of any pair whose
scores do not force a swap. -/
theorem sortScored_stable {α : Type} (l : List (α × Int)) (a b : α × Int)
    (h : [a, b].Sublist l) (hle : b.2 ≤ a.2) :
    [a, b].Sublist (sortScored l) := by
  induction l with
  | nil => cases h
  | cons c cs ih =>
    cases h with
    | cons _ h2 => exact (ih h2).trans (sublist_insertScored c (sortScored cs))
    | cons₂ _ h2 =>
      exact pair_sublist_insertScored a b (sortScored cs)
        (mem_sortScored cs (List.singleton_sublist.mp h2)) hle

/-- The bucket index of any token is within the vector dimension. -/
theorem wordIndexN_lt (w : String) : wordIndexN w < VECTOR_DIMENSIONS := by
  unfold wordIndexN
  exact Nat.mod_lt _ (by decide)

/-- A token list with a member has a bucket with positive count. -/
theorem termFreq_pos_of_mem {ws : List String} {w : String} (hw : w ∈ ws) :
    0 < termFreq ws ⟨wordIndexN w, wordIndexN_lt w⟩ := by
  unfold termFreq
  refine List.countP_pos_iff.mpr ⟨w, hw, ?_⟩
  simp

/-- With at least one token, the accumulated squared magnitude is positive. -/
theorem sumSq_pos {ws : List String} (hne : ws ≠ []) : 0 < sumSq ws := by
  obtain ⟨w, hw⟩ : ∃ w, w ∈ ws := by
    cases ws with
    | nil => exact absurd rfl hne
    | cons x xs => exact ⟨x, List.mem_cons_self x xs⟩
  have hsqrt : (0 : ℝ) < Real.sqrt (ws.length + 1) :=
    Real.sqrt_pos.mpr (by positivity)
  have hraw : 0 < rawVec ws ⟨wordIndexN w, wordIndexN_lt w⟩ := by
    unfold rawVec
    exact div_pos (by exact_mod_cast termFreq_pos_of_mem hw) hsqrt
  exact Finset.sum_pos' (fun j _ => mul_self_nonneg _)
    ⟨⟨wordIndexN w, wordIndexN_lt w⟩, Finset.mem_univ _, mul_pos hraw hraw⟩

/-- With no token at all, every raw component is zero. -/
theorem rawVec_nil (i : Fin VECTOR_DIMENSIONS) : rawVec [] i = 0 := by
  simp [rawVec, termFreq]

/-! ## Claim theorems -/

/-- Claim C8: for every input text, if at least one token survives
normalization the embedding has squared L2 norm exactly one (real-valued
idealisation of the Float32 arithmetic); if no token survives, every
component of the returned 384-dimensional vector is zero. -/
theorem generateTextEmbedding_unit_or_zero (t : String) :
    (tokensOf t ≠ [] →
      ∑ i : Fin VECTOR_DIMENSIONS,
        generateTextEmbedding t i * generateTextEmbedding t i = 1) ∧
    (tokensOf t = [] → ∀ i, generateTextEmbedding t i = 0) := by
  constructor
  · intro hne
    have hS : 0 < sumSq (tokensOf t) := sumSq_pos hne
    have hm : 0 < magnitudeOf (tokensOf t) := Real.sqrt_pos.mpr hS
    have hmm : magnitudeOf (tokensOf t) * magnitudeOf (tokensOf t) = sumSq (tokensOf t) :=
      Real.mul_self_sqrt hS.le
    have hgen : ∀ i, generateTextEmbedding t i =
        rawVec (tokensOf t) i / magnitudeOf (tokensOf t) := by
      intro i
      unfold generateTextEmbedding
      exact if_pos hm
    calc
      ∑ i : Fin VECTOR_DIMENSIONS,
          generateTextEmbedding t i * generateTextEmbedding t i
        = ∑ i : Fin VECTOR_DIMENSIONS,
            (rawVec (tokensOf t) i * rawVec (tokensOf t) i) /
              (magnitudeOf (tokensOf t) * magnitudeOf (tokensOf t)) := by
          refine Finset.sum_congr rfl fun i _ => ?_
          rw [hgen i, div_mul_div_comm]
      _ = sumSq (tokensOf t) / (magnitudeOf (tokensOf t) * magnitudeOf (tokensOf t)) := by
          rw [← Finset.sum_div]
          rfl
      _ = 1 := by rw [hmm, div_self hS.ne']
  · intro hnil i
    have hS : sumSq (tokensOf t) = 0 := by
      rw [hnil]
      simp [sumSq, rawVec_nil]
    have hm : magnitudeOf (tokensOf t) = 0 := by
      unfold magnitudeOf
      rw [hS, Real.sqrt_zero]
    unfold generateTextEmbedding
    rw [if_neg (by rw [hm]; exact lt_irrefl 0), hnil, rawVec_nil]

/-- Witness for C8: the text `spawn vehicle` keeps two tokens and its
embedding has unit squared norm; the text `!!` keeps no token and its
embedding is zero. -/
theorem generateTextEmbedding_unit_or_zero_witness :
    tokensOf "spawn vehicle" ≠ [] ∧
    (∑ i : Fin VECTOR_DIMENSIONS,
        generateTextEmbedding "spawn vehicle" i *
          generateTextEmbedding "spawn vehicle" i) = 1 ∧
    tokensOf "!!" = [] ∧
    generateTextEmbedding "!!" ⟨0, by decide⟩ = 0 :=
  ⟨by decide, (generateTextEmbedding_unit_or_zero "spawn vehicle").1 (by decide),
    by decide, (generateTextEmbedding_unit_or_zero "!!").2 (by decide) ⟨0, by decide⟩⟩

/-- Claim C10: for every page (every regex outcome and stripping function)
and function name, the parsed document has a description of at most 1000
units, a parameters field of at most 2000 units, and a returns field of at
most 500 units. -/
theorem parseDocumentation_truncates (strip : String → String)
    (rx : RegexOracle) (functionName : String) (now : Int) :
    (parseDocumentation strip rx functionName now).description.length ≤ 1000 ∧
    (parseDocumentation strip rx functionName now).parameters.length ≤ 2000 ∧
    (parseDocumentation strip rx functionName now).returns.length ≤ 500 := by
  obtain ⟨dm, dn, ss, pb, lb, ep, ra, oa, ofa, rs, ors, sal⟩ := rx
  refine ⟨?_, ?_, ?_⟩
  · cases dm with
    | some m => exact strTake_length_le _ _
    | none =>
      show (("" : String)).length ≤ 1000
      decide
  · exact strTake_length_le _ _
  · cases rs with
    | some m => exact strTake_length_le _ _
    | none =>
      cases ors with
      | some m => exact strTake_length_le _ _
      | none =>
        show (("" : String)).length ≤ 500
        decide

/-- Claim C9: with a side filter of `client` or `server`, `searchFunctions`
returns only rows whose side equals the filter or equals `shared` (the
filter is not strict equality), and a name-matching row whose side is
`shared` always passes the statement predicate. -/
theorem searchFunctions_shared_included (likeFn : String → String → Bool)
    (table : List MtasaFunction) (q : String) (s : Side) (limit : Nat)
    (f : MtasaFunction) (_hs : s = Side.client ∨ s = Side.server) :
    (f ∈ searchFunctions likeFn table q (some s) limit →
      likeFn f.name (likePattern q) = true ∧
        (f.side = s ∨ f.side = Side.shared)) ∧
    (f ∈ table → likeFn f.name (likePattern q) = true →
      f.side = Side.shared →
      f ∈ table.filter (searchMetadataRow likeFn (likePattern q) (some s))) := by
  constructor
  · intro hmem
    have h1 : f ∈ table.filter (searchMetadataRow likeFn (likePattern q) (some s)) :=
      List.mem_of_mem_take hmem
    have h2 := (List.mem_filter.mp h1).2
    unfold searchMetadataRow at h2
    simp only [Bool.and_eq_true, Bool.or_eq_true, beq_iff_eq] at h2
    exact ⟨h2.1, h2.2⟩
  · intro hf hlike hside
    refine List.mem_filter.mpr ⟨hf, ?_⟩
    unfold searchMetadataRow
    rw [hlike, hside]
    simp

/-- Witness for C9: with a `client` filter, a shared name-matching row is
returned. -/
theorem searchFunctions_shared_included_witness :
    (⟨"outputChatBox", 5, "MTA:SA Shared Functions", Side.shared⟩ : MtasaFunction) ∈
      List.filter
        (searchMetadataRow (fun _ _ => true) (likePattern "Chat")
          (some Side.client))
        [⟨"outputChatBox", 5, "MTA:SA Shared Functions", Side.shared⟩] :=
  (searchFunctions_shared_included (fun _ _ => true)
    [⟨"outputChatBox", 5, "MTA:SA Shared Functions", Side.shared⟩] "Chat"
    Side.client 30 ⟨"outputChatBox", 5, "MTA:SA Shared Functions", Side.shared⟩
    (Or.inl rfl)).2 (by decide) rfl rfl

/-- Claim C3: with `useCache = true` and a cached row present, the call
returns exactly the cached document, leaves the cache unchanged and makes
no fetch, if and only if the row is fresh (`now - timestamp < CACHE_DURATION`). -/
theorem fetchFunctionDoc_fresh_iff (env : WikiEnv) (catalogNames : List String)
    (cache : List (String × CachedDoc)) (name : String) (d : CachedDoc)
    (hc : getDocQ cache name = some d) :
    fetchFunctionDoc env catalogNames cache name true = ⟨some d, cache, false⟩ ↔
      env.now - d.timestamp < CACHE_DURATION := by
  constructor
  · intro h
    by_contra ht
    have hfresh : freshHit env.now cache name true = false := by
      simp [freshHit, hc, ht]
    have hfet := ffd_fetched env catalogNames cache name true hfresh
    rw [h] at hfet
    simp at hfet
  · intro ht
    have hfresh : freshHit env.now cache name true = true := by
      simp [freshHit, hc, ht]
    rw [ffd_eq, hfresh, hc]
    simp

/-- Claim C4: the call returns `none` exactly when the cache-hit branch
does not fire and the wiki fetch for the identifier fails; and whenever it
returns `none` the document cache is left entirely unchanged (the write
happens only on the fully successful path). -/
theorem fetchFunctionDoc_failure (env : WikiEnv) (catalogNames : List String)
    (cache : List (String × CachedDoc)) (name : String) (useCache : Bool) :
    ((fetchFunctionDoc env catalogNames cache name useCache).result = none ↔
      (freshHit env.now cache name useCache = false ∧
        fetchFails env.fetchUrl name)) ∧
    ((fetchFunctionDoc env catalogNames cache name useCache).result = none →
      (fetchFunctionDoc env catalogNames cache name useCache).cache' = cache) := by
  rw [ffd_eq]
  by_cases hfresh : freshHit env.now cache name useCache = true
  · obtain ⟨d, hd, _⟩ := freshHit_elim hfresh
    simp [hfresh, hd]
  · simp only [Bool.not_eq_true] at hfresh
    rw [hfresh]
    unfold fetchFails
    cases hfo : firstOk env.fetchUrl (urlVariants name) with
    | none => simp
    | some p =>
      obtain ⟨html, usedUrl⟩ := p
      by_cases hcond : html = "" ∨ usedUrl = ""
      · simp [hcond]
      · simp [hcond]

/-- Scenario for the counterexample to claim C1: a stale cached row for
`getPlayerPing` (fetched at time 0, queried at `CACHE_DURATION`) and a wiki
on which every fetch fails. -/
def docC1 : CachedDoc :=
  ⟨"getPlayerPing", "https://wiki.multitheftauto.com/wiki/getPlayerPing",
    "d", "s", "e", "p", "r", "rf", "ft", 0, none⟩

/-- Cache state holding only the stale `getPlayerPing` row. -/
def cacheC1 : List (String × CachedDoc) := [("getPlayerPing", docC1)]

/-- Environment in which every fetch fails, at time `CACHE_DURATION`. -/
def envC1 : WikiEnv :=
  ⟨fun _ => none, fun s => s, fun _ => emptyOracle, fun _ => [], CACHE_DURATION⟩

/-- Counterexample to claim C1: with a stale cached document present and
the external fetch failing, `fetchFunctionDoc(id, true)` returns `none`
(NotFound), not the previously cached document. -/
theorem fetchFunctionDoc_stale_fail_counterexample :
    getDocQ cacheC1 "getPlayerPing" = some docC1 ∧
    envC1.fetchUrl (wikiUrl "getPlayerPing") = none ∧
    fetchFunctionDoc envC1 [] cacheC1 "getPlayerPing" true =
      ⟨none, cacheC1, true⟩ ∧
    (fetchFunctionDoc envC1 [] cacheC1 "getPlayerPing" true).result ≠
      some docC1 := by
  decide

/-- Claim C1 as amended: when the cached row is stale and every spelling
variant fails to fetch, the call returns `none` and leaves the cache (and
hence the stale row) unchanged; the prior value is preserved in the cache
but is not returned. -/
theorem fetchFunctionDoc_stale_fail_returns_none (env : WikiEnv)
    (catalogNames : List String) (cache : List (String × CachedDoc))
    (name : String) (d : CachedDoc)
    (hc : getDocQ cache name = some d)
    (hstale : ¬ env.now - d.timestamp < CACHE_DURATION)
    (hfail : firstOk env.fetchUrl (urlVariants name) = none) :
    fetchFunctionDoc env catalogNames cache name true = ⟨none, cache, true⟩ := by
  rw [ffd_eq]
  have hf : freshHit env.now cache name true = false := by
    simp [freshHit, hc, hstale]
  rw [hf, hfail]
  rfl

/-- Scenario document for the witness of the amended claim C1. -/
def docC1w : CachedDoc :=
  ⟨"setElementHealth", "u", "", "", "", "", "", "", "", 0, none⟩

/-- Environment for the witness of the amended claim C1: all fetches fail,
queried five milliseconds after the row went stale. -/
def envC1w : WikiEnv :=
  ⟨fun _ => none, fun s => s, fun _ => emptyOracle, fun _ => [], CACHE_DURATION + 5⟩

/-- Witness for the amended claim C1. -/
theorem fetchFunctionDoc_stale_fail_returns_none_witness :
    fetchFunctionDoc envC1w [] [("setElementHealth", docC1w)]
      "setElementHealth" true =
      ⟨none, [("setElementHealth", docC1w)], true⟩ :=
  fetchFunctionDoc_stale_fail_returns_none envC1w []
    [("setElementHealth", docC1w)] "setElementHealth" docC1w
    (by decide) (by decide) (by decide)

/-- Scenario for claim C2: the wiki resolves only the capitalized variant
`GetPlayerName`, reporting its canonical resolved location in
`response.url`. -/
def envC2 : WikiEnv :=
  ⟨fun u =>
      if u = wikiUrl "GetPlayerName" then
        some ⟨"<p>doc</p>", "https://wiki.multitheftauto.com/wiki/GetPlayerName"⟩
      else none,
    fun s => s, fun _ => emptyOracle, fun _ => [], 0⟩

/-- Evaluation against claim C2: for `getPlayerName` the original spelling
fails and the capitalized variant succeeds with resolved location
`.../wiki/GetPlayerName`, yet the stored and returned document records
`url = .../wiki/getPlayerName`: the loader drops `usedUrl` because the
parser signature takes only the page and the function name. -/
theorem fetchFunctionDoc_url_ignores_variant :
    envC2.fetchUrl (wikiUrl "getPlayerName") = none ∧
    firstOk envC2.fetchUrl (urlVariants "getPlayerName") =
      some ("<p>doc</p>", "https://wiki.multitheftauto.com/wiki/GetPlayerName") ∧
    ((fetchFunctionDoc envC2 [] [] "getPlayerName" false).result.map
        (fun doc => doc.url)) =
      some "https://wiki.multitheftauto.com/wiki/getPlayerName" ∧
    "https://wiki.multitheftauto.com/wiki/getPlayerName" ≠
      "https://wiki.multitheftauto.com/wiki/GetPlayerName" := by
  decide

/-- Scenario document for the witness of claim C3: fetched at time 0,
queried at time 100 (fresh). -/
def docC3 : CachedDoc :=
  ⟨"getPlayerHealth", "u3", "", "", "", "", "", "", "", 0, none⟩

/-- Environment for the witness of claim C3. -/
def envC3 : WikiEnv :=
  ⟨fun _ => none, fun s => s, fun _ => emptyOracle, fun _ => [], 100⟩

/-- Witness for claim C3: the fresh row is returned without any fetch. -/
theorem fetchFunctionDoc_fresh_iff_witness :
    fetchFunctionDoc envC3 [] [("getPlayerHealth", docC3)]
      "getPlayerHealth" true =
      ⟨some docC3, [("getPlayerHealth", docC3)], false⟩ :=
  (fetchFunctionDoc_fresh_iff envC3 [] [("getPlayerHealth", docC3)]
    "getPlayerHealth" docC3 (by decide)).mpr (by decide)

/-- Environment for the witness of claim C4: all fetches fail. -/
def envC4 : WikiEnv :=
  ⟨fun _ => none, fun s => s, fun _ => emptyOracle, fun _ => [], 0⟩

/-- Witness for claim C4: a failing call leaves the (empty) cache unchanged. -/
theorem fetchFunctionDoc_failure_witness :
    (fetchFunctionDoc envC4 [] [] "createVehicle" true).cache' = [] :=
  (fetchFunctionDoc_failure envC4 [] [] "createVehicle" true).2 (by decide)

/-- Claim C5: with a positive limit, if the vector candidates that map to
catalog entries number at least `limit`, the call returns exactly their
first `limit` (in the order of the rows); otherwise the result is computed
entirely by the keyword fallback and the vector candidates are discarded. -/
theorem findRelatedFunctions_vector_or_fallback (vecRows : Option (List String))
    (dbMeta mem : List MtasaFunction) (q : String) (limit : Nat)
    (hpos : 0 < limit) :
    (limit ≤ (vecCandidates vecRows dbMeta).length →
      findRelatedFunctions vecRows dbMeta mem q limit =
        (vecCandidates vecRows dbMeta).take limit) ∧
    ((vecCandidates vecRows dbMeta).length < limit →
      findRelatedFunctions vecRows dbMeta mem q limit =
        keywordFallback mem q limit) := by
  cases vecRows with
  | none =>
    constructor
    · intro h
      have h0 : (vecCandidates none dbMeta).length = 0 := rfl
      omega
    · intro _
      rfl
  | some rows =>
    by_cases hr : 0 < rows.length
    · by_cases hl : limit ≤ (vecCandidates (some rows) dbMeta).length
      · constructor
        · intro _
          unfold findRelatedFunctions
          simp [hr, hl]
        · intro h
          omega
      · constructor
        · intro h
          exact absurd h hl
        · intro _
          unfold findRelatedFunctions
          simp [hr, hl]
    · have hrows : rows = [] := List.length_eq_zero.mp (by omega)
      subst hrows
      constructor
      · intro h
        have h0 : (vecCandidates (some []) dbMeta).length = 0 := rfl
        omega
      · intro _
        unfold findRelatedFunctions
        simp

/-- Catalog entry for the witness of claim C5. -/
def fC5 : MtasaFunction := ⟨"spawnVehicle", 7, "Server Functions", Side.server⟩

/-- Witness for claim C5: one vector row mapping to the catalog suffices
for limit 1 and is returned as is. -/
theorem findRelatedFunctions_vector_or_fallback_witness :
    0 < 1 ∧ 1 ≤ (vecCandidates (some ["spawnVehicle"]) [fC5]).length ∧
    findRelatedFunctions (some ["spawnVehicle"]) [fC5] [] "spawn" 1 =
      (vecCandidates (some ["spawnVehicle"]) [fC5]).take 1 :=
  ⟨by decide, by decide,
    (findRelatedFunctions_vector_or_fallback (some ["spawnVehicle"]) [fC5] []
      "spawn" 1 (by decide)).1 (by decide)⟩

/-- Catalog entry used by the counterexample to claim C6 (larger id,
earlier in catalog insertion order). -/
def funcZ : MtasaFunction := ⟨"zzzgui", 6, "Client Functions", Side.client⟩

/-- Catalog entry used by the counterexample to claim C6 (smaller id,
later in catalog insertion order). -/
def funcA : MtasaFunction := ⟨"aaagui", 7, "Server Functions", Side.server⟩

/-- Counterexample to claim C6: for the query `gui`, both entries score
the same positive value and `aaagui` is lexicographically smaller than
`zzzgui`, yet the fallback returns `zzzgui` first: the sort has no id
tie-break, and stable sorting preserves catalog insertion order. -/
theorem keywordFallback_tie_not_id_order :
    scoreOf (keywordsOf "gui") "zzzgui" = scoreOf (keywordsOf "gui") "aaagui" ∧
    0 < scoreOf (keywordsOf "gui") "zzzgui" ∧
    "aaagui".data < "zzzgui".data ∧
    findRelatedFunctions none [] [funcZ, funcA] "gui" 10 = [funcZ, funcA] := by
  decide

/-- Claim C6 as amended: in the keyword fallback, two items with equal
(positive) score keep their relative catalog order in the ranked list —
the ECMAScript sort is stable and no id tie-break is applied. -/
theorem rankedList_tie_preserves_catalog_order (mem : List MtasaFunction)
    (keywords : List String) (a b : MtasaFunction × Int)
    (h : [a, b].Sublist (scoredList mem keywords)) (he : a.2 = b.2) :
    [a, b].Sublist (rankedList mem keywords) :=
  sortScored_stable (scoredList mem keywords) a b h (le_of_eq he.symm)

/-- Witness for the amended claim C6. -/
theorem rankedList_tie_preserves_catalog_order_witness :
    [(funcZ, (15 : Int)), (funcA, 15)].Sublist
      (scoredList [funcZ, funcA] (keywordsOf "gui")) ∧
    [(funcZ, (15 : Int)), (funcA, 15)].Sublist
      (rankedList [funcZ, funcA] (keywordsOf "gui")) :=
  ⟨by decide,
    rankedList_tie_preserves_catalog_order [funcZ, funcA] (keywordsOf "gui")
      (funcZ, 15) (funcA, 15) (by decide) rfl⟩

/-- Evaluation against claim C7: the source splits the already lowercased
name before uppercase units, so the split is always the whole name in one
part.  For keyword `ntdata` and the catalog id `getElementData`: the true
camel segments are `get`, `Element`, `Data` and none of them contains
`ntdata`, there is no prefix match, yet the computed score is 15 — the +10
containment bonus plus the +5 camel bonus awarded through the unsplit
lowercased name.  The claim (and the source comment `Partial word match in
camelCase`) say the +5 requires a real segment match, hence score 10. -/
theorem scoreOf_camel_bug :
    keywordsOf "ntdata" = ["ntdata"] ∧
    camelSplitStr "getElementData" = ["get", "Element", "Data"] ∧
    ((camelSplitStr "getElementData").all
      (fun part => !(containsStr (lowerString part) "ntdata"))) = true ∧
    camelSplitStr (lowerString "getElementData") = ["getelementdata"] ∧
    startsWithStr (lowerString "getElementData") "ntdata" = false ∧
    scoreOf ["ntdata"] "getElementData" = 15 := by
  decide

end MtasaDocs
